import Mathlib

/-!
LinkStash: a shallow embedding of the link-capture browser extension
(background.js and the sidebar script) together with proofs about its
capture, storage, deletion and formatting logic.

Platform facilities that the scripts call but do not define (the WHATWG
URL parser behind `new URL`, `String.prototype.trim`,
`Array.prototype.join`, CSS attribute-selector queries and
`Array.prototype.splice`) are embedded as explicit Lean functions
modelling their standard semantics.  The functions taken from the
repository keep their source names: `getDomain`, `makeResult`,
`findLinkOnPage`, `handleLinkCapture`, `saveLink`, `isDuplicate`,
`getStoredLinks`, `deleteLink`, `formatLink`, `formatAllPlain`,
`formatAllBulleted`.

The URL parser is passed to the embedded functions as an explicit
argument `parse : String → Option URLRec`, so every general theorem holds
for an arbitrary parser; a small concrete model `urlParseModel` is
supplied for evaluating the functions on concrete inputs.
-/

/-- Result of the browser `new URL` parser: the two pieces the scripts
read, the protocol (including the trailing colon, e.g. "https:") and the
hostname. -/
structure URLRec where
  protocol : String
  hostname : String
deriving DecidableEq

/-- A stored link, as built by `makeResult` in background.js: a title and
a url. -/
structure Link where
  title : String
  url : String
deriving DecidableEq

/-- An anchor element of the page: its raw href attribute (the string
written in the markup, matched by an attribute selector), its resolved
href property (the absolute URL the browser reports), and its text
content. -/
structure Anchor where
  hrefAttr : String
  href : String
  textContent : String
deriving DecidableEq

/-- The page state `findLinkOnPage` can observe: the document's anchors in
document order, the currently hovered anchor (if any), and the window
selection (if any). -/
structure Page where
  anchors : List Anchor
  hovered : Option Anchor
  selection : Option String
deriving DecidableEq

/-- The context-menu `info` object passed to `findLinkOnPage`: the
`linkUrl` and `selectionText` fields, each possibly absent. -/
structure MenuInfo where
  linkUrl : Option String
  selectionText : Option String
deriving DecidableEq

/-- One capture attempt as `handleLinkCapture` sees it: the tab's url,
whether script injection into the page succeeds, the page state, and the
menu info (`none` when triggered by the keyboard shortcut). -/
structure CaptureEvent where
  tabUrl : Option String
  injectOk : Bool
  page : Page
  info : Option MenuInfo
deriving DecidableEq

/-- JS truthiness of an optional string: absent and empty are falsy. -/
def truthy : Option String → Bool
  | none => false
  | some s => s != ""

/-- Models the character class trimmed by JS String.prototype.trim
(ASCII whitespace plus NBSP and BOM; the strings of interest use only
these). -/
def isJsWs (c : Char) : Bool :=
  c == ' ' || c == '\t' || c == '\n' || c == '\r' || c == '\x0b' ||
    c == '\x0c' || c == '\u00A0' || c == '\uFEFF'

/-- Trim on the character list: drop leading and trailing whitespace. -/
def trimList (cs : List Char) : List Char :=
  ((cs.dropWhile isJsWs).reverse.dropWhile isJsWs).reverse

/-- Models JS String.prototype.trim. -/
def jsTrim (s : String) : String :=
  String.mk (trimList s.data)

/-- Models Array.prototype.join with a newline separator. -/
def joinNewline : List String → String
  | [] => ""
  | [s] => s
  | s :: rest => s ++ "\n" ++ joinNewline rest

/-- ASCII alphabetic test. -/
def isAsciiAlpha (c : Char) : Bool :=
  ('a' ≤ c && c ≤ 'z') || ('A' ≤ c && c ≤ 'Z')

/-- Characters allowed after the first one in a URL scheme. -/
def isSchemeChar (c : Char) : Bool :=
  isAsciiAlpha c || ('0' ≤ c && c ≤ '9') || c == '+' || c == '-' || c == '.'

/-- ASCII lower-casing of one character. -/
def asciiLower (c : Char) : Char :=
  if 'A' ≤ c && c ≤ 'Z' then Char.ofNat (c.toNat + 32) else c

/-- Characters that end the host component of a URL. -/
def isHostEnd (c : Char) : Bool :=
  c == '/' || c == '\\' || c == '?' || c == '#' || c == ':'

/-- Modelled from the spec: the browser's WHATWG `new URL` parser, an
external collaborator the scripts call ("Parse it as an absolute URL",
exposing `protocol` and `hostname`).  Simplified to what the claims
exercise: a string parses exactly when it starts with an ASCII-alphabetic
scheme followed by a colon; `protocol` is the lower-cased scheme with the
colon, and `hostname` is the lower-cased authority (empty when no "//"
follows the colon).  Userinfo, ports, percent-encoding and host
validation are not modelled. -/
def urlParseModel (s : String) : Option URLRec :=
  match s.data with
  | [] => none
  | c :: rest =>
    if isAsciiAlpha c then
      match rest.dropWhile isSchemeChar with
      | ':' :: r =>
        let scheme := c :: rest.takeWhile isSchemeChar
        let host :=
          match r with
          | '/' :: '/' :: hr => hr.takeWhile (fun ch => !isHostEnd ch)
          | _ => []
        some { protocol := String.mk (scheme.map asciiLower ++ [':']),
               hostname := String.mk (host.map asciiLower) }
      | _ => none
    else none

/-- Embeds the `hostname.replace` call of `getDomain`, whose anchored
pattern deletes one leading "www." from the string. -/
def stripWww (s : String) : String :=
  match s.data with
  | 'w' :: 'w' :: 'w' :: '.' :: rest => String.mk rest
  | _ => s

/-- getDomain from background.js: the hostname of the parsed url with one
leading "www." stripped; the literal "Link" when parsing throws. -/
def getDomain (parse : String → Option URLRec) (url : String) : String :=
  match parse url with
  | some u => stripWww u.hostname
  | none => "Link"

/-- makeResult from background.js: trim the candidate title and use it,
falling back to `getDomain url` when the candidate is absent or trims to
the empty string. -/
def makeResult (parse : String → Option URLRec) (title : Option String)
    (url : String) : Link :=
  let t := match title with
    | some s => jsTrim s
    | none => ""
  { title := if t == "" then getDomain parse url else t, url := url }

/-- The for-loop of the LinkClick path of `findLinkOnPage`: walk the
matched anchors and return a result for the first one whose trimmed text
is non-empty. -/
def firstTextLoop (parse : String → Option URLRec) (linkUrl : String) :
    List Anchor → Option Link
  | [] => none
  | a :: rest =>
    let text := jsTrim a.textContent
    if text == "" then firstTextLoop parse linkUrl rest
    else some (makeResult parse (some text) linkUrl)

/-- findLinkOnPage from background.js.  Path 1 (context menu on a link)
queries `a[href="linkUrl"]`, i.e. anchors whose raw href attribute equals
`info.linkUrl` (the embedding assumes `linkUrl` contains no characters
needing CSS-selector escaping, so the query is plain string equality on
the attribute).  Path 2 (context menu on selected text) trims the
selection, parses it and accepts only http/https.  Path 3 (keyboard
shortcut, `info = none`) first uses the hovered anchor's resolved href,
then falls back to the window selection with the same URL check as
path 2. -/
def findLinkOnPage (parse : String → Option URLRec) (page : Page)
    (info : Option MenuInfo) : Option Link :=
  match info with
  | some i =>
    if truthy i.linkUrl then
      let linkUrl := i.linkUrl.getD ""
      let found := page.anchors.filter (fun a => a.hrefAttr == linkUrl)
      match firstTextLoop parse linkUrl found with
      | some r => some r
      | none => some (makeResult parse none linkUrl)
    else if truthy i.selectionText then
      let text := jsTrim (i.selectionText.getD "")
      match parse text with
      | some u =>
        if u.protocol == "http:" || u.protocol == "https:" then
          some (makeResult parse none text)
        else none
      | none => none
    else none
  | none =>
    let hoverResult : Option Link :=
      match page.hovered with
      | some h =>
        if h.href == "" then none
        else some (makeResult parse (some (jsTrim h.textContent)) h.href)
      | none => none
    match hoverResult with
    | some r => some r
    | none =>
      match page.selection with
      | some raw =>
        let sel := jsTrim raw
        if sel == "" then none
        else
          match parse sel with
          | some u =>
            if u.protocol == "http:" || u.protocol == "https:" then
              some (makeResult parse none sel)
            else none
          | none => none
      | none => none

/-- The LinkClick extraction as the specification words it: the anchors
considered are those whose RESOLVED href equals `linkUrl`; the title is
the trimmed text of the first match with non-empty trimmed text, with the
domain-derived fallback otherwise, and the url is `linkUrl` verbatim. -/
def findLinkOnPageSpecLC (parse : String → Option URLRec) (page : Page)
    (linkUrl : String) : Link :=
  match (page.anchors.filter (fun a => a.href == linkUrl)).find?
      (fun a => jsTrim a.textContent != "") with
  | some a => { title := jsTrim a.textContent, url := linkUrl }
  | none => { title := getDomain parse linkUrl, url := linkUrl }

/-- getStoredLinks from background.js and the sidebar script: the value
stored under the well-known key, or an empty array when the key is
absent. -/
def getStoredLinks (storage : Option (List Link)) : List Link :=
  match storage with
  | some links => links
  | none => []

/-- isDuplicate from background.js: some stored link has the given url
(exact string equality). -/
def isDuplicate (links : List Link) (url : String) : Bool :=
  links.any (fun link => link.url == url)

/-- saveLink from background.js, acting on the session storage: read the
stored list, return it untouched on a duplicate url, otherwise write back
the list with the new link pushed at the end. -/
def saveLink (storage : Option (List Link)) (linkData : Link) :
    Option (List Link) :=
  let links := getStoredLinks storage
  if isDuplicate links linkData.url then storage
  else some (links ++ [{ title := linkData.title, url := linkData.url }])

/-- Embeds the regex test of `handleLinkCapture` matching the pattern
that requires the string to start with "http://" or "https://". -/
def schemeOk (s : String) : Bool :=
  match s.data with
  | 'h' :: 't' :: 't' :: 'p' :: ':' :: '/' :: '/' :: _ => true
  | 'h' :: 't' :: 't' :: 'p' :: 's' :: ':' :: '/' :: '/' :: _ => true
  | _ => false

/-- The guard of `handleLinkCapture` on the tab url: the url must be
present, truthy and match the http/https pattern. -/
def tabOk : Option String → Bool
  | none => false
  | some u => schemeOk u

/-- handleLinkCapture from background.js.  The returned Bool records
whether the page was accessed (script injection attempted); the returned
storage is the session storage after the attempt.  A failed injection is
caught and logged, leaving the storage untouched; no error is ever
surfaced (the function is total). -/
def handleLinkCapture (parse : String → Option URLRec) (ev : CaptureEvent)
    (storage : Option (List Link)) : Bool × Option (List Link) :=
  if tabOk ev.tabUrl then
    if ev.injectOk then
      match findLinkOnPage parse ev.page ev.info with
      | some linkData =>
        if linkData.url == "" then (true, storage)
        else (true, saveLink storage linkData)
      | none => (true, storage)
    else (true, storage)
  else (false, storage)

/-- A sequence of capture attempts run against the session storage. -/
def runCaptures (parse : String → Option URLRec) :
    Option (List Link) → List CaptureEvent → Option (List Link)
  | storage, [] => storage
  | storage, ev :: rest =>
    runCaptures parse (handleLinkCapture parse ev storage).2 rest

/-- The start index JS Array.prototype.splice computes from a possibly
negative index: a negative index counts from the end and is clamped to 0,
a non-negative one is clamped to the length. -/
def spliceStart (len index : Int) : Int :=
  if index < 0 then max (len + index) 0 else min index len

/-- deleteLink from the sidebar script: `links.splice(index, 1)`, removing
one element at the splice start position. -/
def deleteLink (links : List Link) (index : Int) : List Link :=
  links.take (spliceStart links.length index).toNat ++
    links.drop ((spliceStart links.length index).toNat + 1)

/-- formatLink from the sidebar script. -/
def formatLink (link : Link) (asMarkdown : Bool) : String :=
  if asMarkdown then "[" ++ link.title ++ "](" ++ link.url ++ ")"
  else link.url

/-- formatAllPlain from the sidebar script: each link formatted, joined
by newline. -/
def formatAllPlain (links : List Link) (asMarkdown : Bool) : String :=
  joinNewline (links.map (fun link => formatLink link asMarkdown))

/-- formatAllBulleted from the sidebar script: like formatAllPlain with
every line prefixed by a dash and a space. -/
def formatAllBulleted (links : List Link) (asMarkdown : Bool) : String :=
  joinNewline (links.map (fun link => "- " ++ formatLink link asMarkdown))

/-- An event whose menu info is the SelectionClick shape: no linkUrl, a
selection text present. -/
def isSelectionEvent (ev : CaptureEvent) : Bool :=
  match ev.info with
  | some { linkUrl := none, selectionText := some _ } => true
  | _ => false

/-- A url accepted by http/https protocol validation under the given
parser. -/
def validUrl (parse : String → Option URLRec) (url : String) : Prop :=
  ∃ u, parse url = some u ∧ (u.protocol = "http:" ∨ u.protocol = "https:")

lemma urlParseModel_https :
    urlParseModel "https://www.example.com/page" =
      some { protocol := "https:", hostname := "www.example.com" } := by decide

lemma urlParseModel_not_a_url : urlParseModel "hello world" = none := by decide

lemma urlParseModel_mailto :
    urlParseModel "mailto:a@b.c" =
      some { protocol := "mailto:", hostname := "" } := by decide

lemma jsTrim_example : jsTrim "  a b  " = "a b" := by decide

lemma dropWhile_head?_false {α : Type} (p : α → Bool) :
    ∀ (l : List α) (x : α), (l.dropWhile p).head? = some x → p x = false := by
  intro l
  induction l with
  | nil => intro x h; simp [List.dropWhile] at h
  | cons a t ih =>
    intro x h
    cases hp : p a with
    | true =>
      rw [List.dropWhile_cons, if_pos hp] at h
      exact ih x h
    | false =>
      rw [List.dropWhile_cons, if_neg (by simp [hp])] at h
      simp at h
      exact h ▸ hp

lemma dropWhile_eq_self_of_head?_false {α : Type} (p : α → Bool) (l : List α)
    (h : ∀ x, l.head? = some x → p x = false) : l.dropWhile p = l := by
  cases l with
  | nil => rfl
  | cons a t =>
    rw [List.dropWhile_cons, if_neg (by simp [h a rfl])]

lemma exists_append_dropWhile {α : Type} (p : α → Bool) :
    ∀ l : List α, ∃ t, t ++ l.dropWhile p = l := by
  intro l
  induction l with
  | nil => exact ⟨[], rfl⟩
  | cons a tl ih =>
    cases hp : p a with
    | true =>
      obtain ⟨t, ht⟩ := ih
      exact ⟨a :: t, by rw [List.dropWhile_cons, if_pos hp, List.cons_append, ht]⟩
    | false =>
      exact ⟨[], by rw [List.dropWhile_cons, if_neg (by simp [hp]), List.nil_append]⟩

lemma trimList_head?_false (cs : List Char) :
    ∀ x, (trimList cs).head? = some x → isJsWs x = false := by
  intro x hx
  unfold trimList at hx
  obtain ⟨t, ht⟩ := exists_append_dropWhile isJsWs (cs.dropWhile isJsWs).reverse
  have hA : cs.dropWhile isJsWs =
      ((cs.dropWhile isJsWs).reverse.dropWhile isJsWs).reverse ++ t.reverse := by
    have h2 := congrArg List.reverse ht
    rw [List.reverse_append, List.reverse_reverse] at h2
    exact h2.symm
  cases hB : ((cs.dropWhile isJsWs).reverse.dropWhile isJsWs).reverse with
  | nil => rw [hB] at hx; simp at hx
  | cons y ys =>
    rw [hB] at hx hA
    simp at hx
    have hy : (cs.dropWhile isJsWs).head? = some y := by
      rw [hA]; simp
    have := dropWhile_head?_false isJsWs cs y hy
    exact hx ▸ this

lemma trimList_reverse_head?_false (cs : List Char) :
    ∀ x, (trimList cs).reverse.head? = some x → isJsWs x = false := by
  intro x hx
  unfold trimList at hx
  rw [List.reverse_reverse] at hx
  exact dropWhile_head?_false isJsWs _ x hx

lemma trimList_idem (cs : List Char) : trimList (trimList cs) = trimList cs := by
  have h1 : (trimList cs).dropWhile isJsWs = trimList cs :=
    dropWhile_eq_self_of_head?_false _ _ (trimList_head?_false cs)
  have h2 : (trimList cs).reverse.dropWhile isJsWs = (trimList cs).reverse :=
    dropWhile_eq_self_of_head?_false _ _ (trimList_reverse_head?_false cs)
  have e : trimList (trimList cs) =
      (((trimList cs).dropWhile isJsWs).reverse.dropWhile isJsWs).reverse := rfl
  rw [e, h1, h2, List.reverse_reverse]

lemma jsTrim_idem (s : String) : jsTrim (jsTrim s) = jsTrim s := by
  have e : jsTrim (jsTrim s) = String.mk (trimList (trimList s.data)) := rfl
  rw [e, trimList_idem]
  rfl

lemma firstTextLoop_eq (parse : String → Option URLRec) (u : String) :
    ∀ l : List Anchor, firstTextLoop parse u l =
      (l.find? (fun a => jsTrim a.textContent != "")).map
        (fun a => { title := jsTrim a.textContent, url := u }) := by
  intro l
  induction l with
  | nil => rfl
  | cons a t ih =>
    cases h : (jsTrim a.textContent == "") with
    | true =>
      have hl : firstTextLoop parse u (a :: t) = firstTextLoop parse u t := by
        simp [firstTextLoop, h]
      rw [hl, ih, List.find?_cons_of_neg _ (by simp [bne, h])]
    | false =>
      have hl : firstTextLoop parse u (a :: t) =
          some (makeResult parse (some (jsTrim a.textContent)) u) := by
        simp [firstTextLoop, h]
      rw [hl, List.find?_cons_of_pos _ (by simp [bne, h])]
      simp [makeResult, jsTrim_idem, h]

lemma eraseIdx_len_le {α : Type} : ∀ (l : List α) (n : Nat),
    l.length ≤ n → l.eraseIdx n = l := by
  intro l
  induction l with
  | nil => intro n _; rfl
  | cons a t ih =>
    intro n hn
    cases n with
    | zero => simp at hn
    | succ m =>
      have : t.eraseIdx m = t := ih m (by simpa using hn)
      simp [List.eraseIdx, this]

lemma deleteLink_eq_eraseIdx (L : List Link) (i : Int) :
    deleteLink L i = L.eraseIdx (spliceStart L.length i).toNat := by
  rw [List.eraseIdx_eq_take_drop_succ]
  rfl

/-- C3 counterexample: `removeAt(-1)` on a one-element list is not a
no-op — JS `splice` counts a negative index from the end and removes the
last element, contradicting the claim that every out-of-range index
(including negative ones) leaves the list unchanged. -/
theorem deleteLink_negative_index_cex :
    deleteLink [⟨"A", "https://x.com"⟩] (-1) = [] ∧
      deleteLink [⟨"A", "https://x.com"⟩] (-1) ≠ [⟨"A", "https://x.com"⟩] := by
  decide

/-- C3 (amended): `deleteLink L i` removes exactly the element at
position `i` (shifting the rest down, order preserved) when
`0 ≤ i < |L|`, is a no-op when `i ≥ |L|`, but interprets a negative `i`
as `|L| + i` clamped to 0 (JS splice semantics), so a negative index can
remove an element. -/
theorem deleteLink_splice_spec (L : List Link) (i : Int) :
    (0 ≤ i → deleteLink L i = L.eraseIdx i.toNat) ∧
    ((L.length : Int) ≤ i → deleteLink L i = L) ∧
    (i < 0 → deleteLink L i = L.eraseIdx ((L.length : Int) + i).toNat) := by
  refine ⟨fun h0 => ?_, fun hle => ?_, fun hneg => ?_⟩
  · rw [deleteLink_eq_eraseIdx]
    rcases le_or_lt i (L.length : Int) with hle | hgt
    · have : (spliceStart L.length i).toNat = i.toNat := by
        unfold spliceStart
        rw [if_neg (by omega)]
        omega
      rw [this]
    · have h1 : (spliceStart L.length i).toNat = L.length := by
        unfold spliceStart
        rw [if_neg (by omega)]
        omega
      rw [h1, eraseIdx_len_le L _ (le_refl _),
        eraseIdx_len_le L _ (by omega)]
  · rw [deleteLink_eq_eraseIdx]
    have h1 : (spliceStart L.length i).toNat = L.length := by
      unfold spliceStart
      rw [if_neg (by omega)]
      omega
    rw [h1]
    exact eraseIdx_len_le L _ (le_refl _)
  · rw [deleteLink_eq_eraseIdx]
    have h1 : (spliceStart L.length i).toNat = ((L.length : Int) + i).toNat := by
      unfold spliceStart
      rw [if_pos hneg]
      omega
    rw [h1]

/-- C3 witness: `removeAt(99)` on a two-element list leaves it
unchanged. -/
theorem deleteLink_splice_spec_witness :
    deleteLink [⟨"A", "https://x.com"⟩, ⟨"B", "https://y.com"⟩] 99 =
      [⟨"A", "https://x.com"⟩, ⟨"B", "https://y.com"⟩] :=
  (deleteLink_splice_spec _ 99).2.1 (by decide)

/-- C9: on the empty list both bulk formatters return the empty string,
with no stray bullet prefix. -/
theorem format_empty_list (m : Bool) :
    formatAllPlain [] m = "" ∧ formatAllBulleted [] m = "" :=
  ⟨rfl, rfl⟩

/-- C7: `formatLink` produces the Markdown form `[title](url)` (with no
escaping of the title) exactly when asMarkdown is true and the bare url
otherwise; the bulk formatters join the per-link outputs with single
newlines in list order, the bulleted one prefixing each line with a dash
and a space. -/
theorem formatter_spec (l : Link) (ls : List Link) (m : Bool) :
    formatLink l true = "[" ++ l.title ++ "](" ++ l.url ++ ")" ∧
    formatLink l false = l.url ∧
    formatAllPlain (l :: ls) m =
      (if ls = [] then formatLink l m
       else formatLink l m ++ "\n" ++ formatAllPlain ls m) ∧
    formatAllBulleted (l :: ls) m =
      (if ls = [] then "- " ++ formatLink l m
       else "- " ++ formatLink l m ++ "\n" ++ formatAllBulleted ls m) ∧
    formatAllBulleted [⟨"A", "https://x.com"⟩, ⟨"B", "https://y.com"⟩] false =
      "- https://x.com\n- https://y.com" := by
  refine ⟨rfl, rfl, ?_, ?_, by decide⟩
  · cases ls with
    | nil => simp [formatAllPlain, joinNewline]
    | cons b bs => simp [formatAllPlain, joinNewline]
  · cases ls with
    | nil => simp [formatAllBulleted, joinNewline]
    | cons b bs => simp [formatAllBulleted, joinNewline]

/-- C10: a missing storage key reads as the empty list, a present key
reads as its value, and a capture behaves the same (as observed through
`getStoredLinks`) whether the backing key is absent or holds the empty
list. -/
theorem getStoredLinks_default :
    getStoredLinks none = [] ∧ (∀ v, getStoredLinks (some v) = v) ∧
      (∀ (parse : String → Option URLRec) (ev : CaptureEvent),
        getStoredLinks (handleLinkCapture parse ev none).2 =
          getStoredLinks (handleLinkCapture parse ev (some [])).2) := by
  refine ⟨rfl, fun v => rfl, fun parse ev => ?_⟩
  unfold handleLinkCapture
  cases htab : tabOk ev.tabUrl
  · simp [getStoredLinks]
  · cases hinj : ev.injectOk
    · simp [getStoredLinks]
    · cases hfind : findLinkOnPage parse ev.page ev.info with
      | none => simp [getStoredLinks]
      | some r =>
        cases hurl : (r.url == "") with
        | true => simp [hurl, getStoredLinks]
        | false => simp [hurl, saveLink, getStoredLinks, isDuplicate]

lemma isDuplicate_iff (M : List Link) (u : String) :
    isDuplicate M u = true ↔ ∃ e ∈ M, e.url = u := by
  simp [isDuplicate, List.any_eq_true]

/-- C4: `saveLink` is a no-op when some stored link already has the same
url (exact, case-sensitive string equality) and otherwise appends the new
link at the end; consequently adding two links with the same url (equal or
differing titles) to a list free of that url leaves exactly one entry with
that url, the one appended by the first add. -/
theorem saveLink_dedup (L : List Link) (x y : Link) :
    ((∃ e ∈ L, e.url = x.url) → saveLink (some L) x = some L) ∧
    ((∀ e ∈ L, e.url ≠ x.url) → saveLink (some L) x = some (L ++ [x])) ∧
    (y.url = x.url → (∀ e ∈ L, e.url ≠ x.url) →
      saveLink (saveLink (some L) x) y = some (L ++ [x]) ∧
      (L ++ [x]).countP (fun e => e.url == x.url) = 1) := by
  have hadd : (∀ e ∈ L, e.url ≠ x.url) → saveLink (some L) x = some (L ++ [x]) := by
    intro h
    have hfalse : isDuplicate L x.url = false := by
      rw [Bool.eq_false_iff]
      intro hc
      obtain ⟨e, he, heq⟩ := (isDuplicate_iff L x.url).mp hc
      exact h e he heq
    simp [saveLink, getStoredLinks, hfalse]
  refine ⟨fun h => ?_, hadd, fun hy h => ?_⟩
  · have htrue : isDuplicate L x.url = true := (isDuplicate_iff L x.url).mpr h
    simp [saveLink, getStoredLinks, htrue]
  · constructor
    · rw [hadd h]
      have htrue : isDuplicate (L ++ [x]) y.url = true :=
        (isDuplicate_iff _ _).mpr ⟨x, by simp, hy.symm⟩
      simp [saveLink, getStoredLinks, htrue]
    · rw [List.countP_append]
      have hL0 : L.countP (fun e => e.url == x.url) = 0 := by
        rw [List.countP_eq_zero]
        intro e he
        simp [h e he]
      simp [hL0, List.countP_cons]

/-- C4 witness: adding the same url twice with differing titles, starting
from the empty list, stores exactly the first link. -/
theorem saveLink_dedup_witness :
    saveLink (saveLink (some []) ⟨"First", "https://u.example/"⟩)
        ⟨"Second", "https://u.example/"⟩ =
      some [⟨"First", "https://u.example/"⟩] :=
  ((saveLink_dedup [] ⟨"First", "https://u.example/"⟩
      ⟨"Second", "https://u.example/"⟩).2.2 rfl (by simp)).1

/-- C6: when the tab url is absent or does not start with http:// or
https:// the coordinator returns without accessing the page and without
touching the storage (and, the function being total, surfaces no error);
and whenever the extractor yields no result, or a result with an empty
url, the storage is also left untouched. -/
theorem capture_guard_spec (parse : String → Option URLRec)
    (ev : CaptureEvent) (storage : Option (List Link)) :
    (tabOk ev.tabUrl = false →
      handleLinkCapture parse ev storage = (false, storage)) ∧
    (findLinkOnPage parse ev.page ev.info = none →
      (handleLinkCapture parse ev storage).2 = storage) ∧
    (∀ r, findLinkOnPage parse ev.page ev.info = some r → r.url = "" →
      (handleLinkCapture parse ev storage).2 = storage) := by
  refine ⟨fun h => ?_, fun h => ?_, fun r hr hurl => ?_⟩
  · simp [handleLinkCapture, h]
  · unfold handleLinkCapture
    cases htab : tabOk ev.tabUrl
    · simp
    · cases hinj : ev.injectOk
      · simp
      · simp [h]
  · unfold handleLinkCapture
    cases htab : tabOk ev.tabUrl
    · simp
    · cases hinj : ev.injectOk
      · simp
      · simp [hr, hurl]

/-- C6 witness: a capture attempted against the page url
chrome://extensions performs no page access and no storage change. -/
theorem capture_guard_spec_witness :
    handleLinkCapture urlParseModel
        ⟨some "chrome://extensions", true, ⟨[], none, none⟩, none⟩ none =
      (false, none) :=
  (capture_guard_spec urlParseModel
    ⟨some "chrome://extensions", true, ⟨[], none, none⟩, none⟩ none).1 (by decide)

/-- C8: the final title of a result is the trimmed candidate title when
that is non-empty (whitespace-only candidates count as empty); otherwise
it is the domain-derived fallback, i.e. the url's hostname with one
leading "www." label stripped, or the literal "Link" when the url fails
to parse. -/
theorem title_fallback_spec (parse : String → Option URLRec)
    (t url : String) (u : URLRec) :
    (jsTrim t ≠ "" →
      makeResult parse (some t) url = { title := jsTrim t, url := url }) ∧
    (jsTrim t = "" →
      makeResult parse (some t) url =
        { title := getDomain parse url, url := url }) ∧
    makeResult parse none url = { title := getDomain parse url, url := url } ∧
    (parse url = some u → getDomain parse url = stripWww u.hostname) ∧
    (parse url = none → getDomain parse url = "Link") ∧
    (∀ cs : List Char,
      stripWww (String.mk ('w' :: 'w' :: 'w' :: '.' :: cs)) = String.mk cs) ∧
    stripWww "www.www.example.com" = "www.example.com" := by
  refine ⟨fun h => ?_, fun h => ?_, by simp [makeResult], fun h => ?_,
    fun h => ?_, fun cs => rfl, by decide⟩
  · simp [makeResult, h]
  · simp [makeResult, h]
  · simp [getDomain, h]
  · simp [getDomain, h]

/-- C8 witness: the spec's example, a whitespace-only candidate title
with url https://www.example.com/page yields the title example.com. -/
theorem title_fallback_spec_witness :
    makeResult urlParseModel (some "   ") "https://www.example.com/page" =
      { title := "example.com", url := "https://www.example.com/page" } :=
  ((title_fallback_spec urlParseModel "   " "https://www.example.com/page"
      ⟨"https:", "www.example.com"⟩).2.1 (by decide)).trans (by decide)

/-- C5: extraction from a SelectionClick context returns a result exactly
when the trimmed selection parses as a URL whose protocol is http or
https, in which case the title is domain-derived and the url is the
trimmed selection text verbatim; when the text does not parse, or parses
with any other protocol, there is no result, and a capture whose
extraction yields no result never mutates the storage. -/
theorem selection_capture_spec (parse : String → Option URLRec)
    (page : Page) (s : String) (u : URLRec) :
    (s ≠ "" → parse (jsTrim s) = some u →
      (u.protocol = "http:" ∨ u.protocol = "https:") →
      findLinkOnPage parse page (some ⟨none, some s⟩) =
        some { title := getDomain parse (jsTrim s), url := jsTrim s }) ∧
    (parse (jsTrim s) = none →
      findLinkOnPage parse page (some ⟨none, some s⟩) = none) ∧
    (parse (jsTrim s) = some u →
      ¬(u.protocol = "http:" ∨ u.protocol = "https:") →
      findLinkOnPage parse page (some ⟨none, some s⟩) = none) ∧
    (∀ (ev : CaptureEvent) (storage : Option (List Link)),
      findLinkOnPage parse ev.page ev.info = none →
      (handleLinkCapture parse ev storage).2 = storage) := by
  refine ⟨fun hs hp hproto => ?_, fun hp => ?_, fun hp hproto => ?_,
    fun ev storage h => ?_⟩
  · have hbool : (u.protocol == "http:" || u.protocol == "https:") = true := by
      rcases hproto with h1 | h1 <;> simp [h1]
    simp [findLinkOnPage, truthy, hs, hp, hbool, makeResult]
  · by_cases hs : s = ""
    · subst hs; simp [findLinkOnPage, truthy]
    · simp [findLinkOnPage, truthy, hs, hp]
  · have hbool : (u.protocol == "http:" || u.protocol == "https:") = false := by
      have h1 := not_or.mp hproto
      simp [h1.1, h1.2]
    by_cases hs : s = ""
    · subst hs; simp [findLinkOnPage, truthy]
    · simp [findLinkOnPage, truthy, hs, hp, hbool]
  · unfold handleLinkCapture
    cases htab : tabOk ev.tabUrl
    · simp
    · cases hinj : ev.injectOk
      · simp
      · simp [h]

/-- C5 witness: a padded https selection is captured with the trimmed url
and the domain-derived title; compare the spec's example inputs. -/
theorem selection_capture_spec_witness :
    findLinkOnPage urlParseModel ⟨[], none, none⟩
        (some ⟨none, some "  https://x.example/path  "⟩) =
      some { title := "x.example", url := "https://x.example/path" } :=
  ((selection_capture_spec urlParseModel ⟨[], none, none⟩
      "  https://x.example/path  " ⟨"https:", "x.example"⟩).1
    (by decide) (by decide) (Or.inr rfl)).trans (by decide)

/-- C2 counterexample: an anchor whose raw href attribute is the relative
string /p resolves to https://x.com/p, yet the attribute-selector query
of findLinkOnPage does not consider it, so the code falls back to the
domain-derived title while the spec-worded resolved-href extraction
returns the anchor's text — the two disagree on this page. -/
theorem linkClick_resolved_href_cex :
    findLinkOnPage urlParseModel
        ⟨[⟨"/p", "https://x.com/p", "Hello"⟩], none, none⟩
        (some ⟨some "https://x.com/p", none⟩) =
      some ⟨"x.com", "https://x.com/p"⟩ ∧
    findLinkOnPageSpecLC urlParseModel
        ⟨[⟨"/p", "https://x.com/p", "Hello"⟩], none, none⟩
        "https://x.com/p" = ⟨"Hello", "https://x.com/p"⟩ ∧
    (⟨"x.com", "https://x.com/p"⟩ : Link) ≠ ⟨"Hello", "https://x.com/p"⟩ := by
  decide

/-- C2 (amended): on LinkClick(linkUrl) the extractor considers exactly
the anchors whose RAW href attribute equals linkUrl (not the resolved
href); the title is the trimmed text of the first such anchor with
non-empty trimmed text, with the domain-derived fallback when no
considered anchor has text, and the url is linkUrl verbatim. -/
theorem linkClick_attr_match (parse : String → Option URLRec) (page : Page)
    (u : String) (sel : Option String) (hu : u ≠ "") :
    findLinkOnPage parse page (some ⟨some u, sel⟩) =
      some (match (page.anchors.filter (fun a => a.hrefAttr == u)).find?
          (fun a => jsTrim a.textContent != "") with
        | some a => { title := jsTrim a.textContent, url := u }
        | none => { title := getDomain parse u, url := u }) := by
  have ht : truthy (some u) = true := by simp [truthy, hu]
  simp only [findLinkOnPage, ht, if_true, Option.getD_some]
  rw [firstTextLoop_eq]
  cases hf : (page.anchors.filter (fun a => a.hrefAttr == u)).find?
      (fun a => jsTrim a.textContent != "") with
  | some a => simp [hf]
  | none => simp [hf, makeResult]

/-- C2 witness: a matching raw-href anchor with padded text yields its
trimmed text as title and linkUrl verbatim as url. -/
theorem linkClick_attr_match_witness :
    findLinkOnPage urlParseModel
        ⟨[⟨"https://a.example/", "https://a.example/", "  T  "⟩], none, none⟩
        (some ⟨some "https://a.example/", none⟩) =
      some ⟨"T", "https://a.example/"⟩ :=
  (linkClick_attr_match urlParseModel
      ⟨[⟨"https://a.example/", "https://a.example/", "  T  "⟩], none, none⟩
      "https://a.example/" none (by decide)).trans (by decide)

lemma findLink_selection_valid (parse : String → Option URLRec)
    (page : Page) (s : String) (r : Link)
    (h : findLinkOnPage parse page (some ⟨none, some s⟩) = some r) :
    validUrl parse r.url := by
  by_cases hs : s = ""
  · subst hs; simp [findLinkOnPage, truthy] at h
  · cases hp : parse (jsTrim s) with
    | none => simp [findLinkOnPage, truthy, hs, hp] at h
    | some u =>
      cases hproto : (u.protocol == "http:" || u.protocol == "https:") with
      | false => simp [findLinkOnPage, truthy, hs, hp, hproto] at h
      | true =>
        simp [findLinkOnPage, truthy, hs, hp, hproto, makeResult] at h
        have hurl : r.url = jsTrim s := by rw [← h]
        refine ⟨u, by rw [hurl]; exact hp, ?_⟩
        have := Bool.or_eq_true_iff.mp hproto
        simpa using this

lemma isSelectionEvent_shape (ev : CaptureEvent)
    (h : isSelectionEvent ev = true) : ∃ s, ev.info = some ⟨none, some s⟩ := by
  unfold isSelectionEvent at h
  cases hinfo : ev.info with
  | none => rw [hinfo] at h; simp at h
  | some i =>
    cases i with
    | mk lu st =>
      cases lu with
      | some v => rw [hinfo] at h; simp at h
      | none =>
        cases st with
        | none => rw [hinfo] at h; simp at h
        | some s => exact ⟨s, rfl⟩

lemma mem_saveLink (storage : Option (List Link)) (d : Link) (l : Link)
    (hl : l ∈ getStoredLinks (saveLink storage d)) :
    l ∈ getStoredLinks storage ∨ l = d := by
  by_cases hdup : isDuplicate (getStoredLinks storage) d.url = true
  · unfold saveLink at hl
    rw [if_pos hdup] at hl
    exact Or.inl hl
  · unfold saveLink at hl
    rw [if_neg hdup] at hl
    simp [getStoredLinks] at hl
    rcases hl with h | h
    · exact Or.inl h
    · exact Or.inr h

lemma capture_selection_step (parse : String → Option URLRec)
    (ev : CaptureEvent) (storage : Option (List Link))
    (hev : isSelectionEvent ev = true)
    (hinv : ∀ l ∈ getStoredLinks storage, validUrl parse l.url) :
    ∀ l ∈ getStoredLinks (handleLinkCapture parse ev storage).2,
      validUrl parse l.url := by
  cases htab : tabOk ev.tabUrl
  · have h2 : (handleLinkCapture parse ev storage).2 = storage := by
      simp [handleLinkCapture, htab]
    rw [h2]; exact hinv
  · cases hinj : ev.injectOk
    · have h2 : (handleLinkCapture parse ev storage).2 = storage := by
        simp [handleLinkCapture, htab, hinj]
      rw [h2]; exact hinv
    · cases hfind : findLinkOnPage parse ev.page ev.info with
      | none =>
        have h2 : (handleLinkCapture parse ev storage).2 = storage := by
          simp [handleLinkCapture, htab, hinj, hfind]
        rw [h2]; exact hinv
      | some r =>
        cases hurl : (r.url == "") with
        | true =>
          have h2 : (handleLinkCapture parse ev storage).2 = storage := by
            simp [handleLinkCapture, htab, hinj, hfind, hurl]
          rw [h2]; exact hinv
        | false =>
          have hstep : (handleLinkCapture parse ev storage).2 =
              saveLink storage r := by
            simp [handleLinkCapture, htab, hinj, hfind, hurl]
          obtain ⟨s, hs⟩ := isSelectionEvent_shape ev hev
          rw [hs] at hfind
          have hr : validUrl parse r.url :=
            findLink_selection_valid parse ev.page s r hfind
          rw [hstep]
          intro l hl
          rcases mem_saveLink storage r l hl with h | h
          · exact hinv l h
          · rw [h]; exact hr

lemma runCaptures_selection_aux (parse : String → Option URLRec) :
    ∀ (evs : List CaptureEvent) (storage : Option (List Link)),
      (∀ ev ∈ evs, isSelectionEvent ev = true) →
      (∀ l ∈ getStoredLinks storage, validUrl parse l.url) →
      ∀ l ∈ getStoredLinks (runCaptures parse storage evs),
        validUrl parse l.url := by
  intro evs
  induction evs with
  | nil => intro storage _ hinv; simpa [runCaptures] using hinv
  | cons e rest ih =>
    intro storage hall hinv
    simp only [runCaptures]
    exact ih _ (fun ev hev => hall ev (by simp [hev]))
      (capture_selection_step parse e storage (hall e (by simp)) hinv)

/-- C1 counterexample: on an https page, a LinkClick capture of an anchor
whose url is mailto:a@b.c stores that url even though it begins with
neither http:// nor https:// — the code validates the protocol only on
the selection paths, never on linkUrl. -/
theorem store_protocol_invariant_cex :
    runCaptures urlParseModel none
        [⟨some "https://ok.example/", true,
          ⟨[⟨"mailto:a@b.c", "mailto:a@b.c", "Mail me"⟩], none, none⟩,
          some ⟨some "mailto:a@b.c", none⟩⟩] =
      some [⟨"Mail me", "mailto:a@b.c"⟩] ∧
    schemeOk "mailto:a@b.c" = false := by
  decide

/-- C1 (amended): protocol validation holds for the selection-based
captures only — after any sequence of SelectionClick captures starting
from an empty session store, every stored entry's url parses with
protocol http or https; a LinkClick (or hovered-anchor) capture instead
inserts its url verbatim, whatever its scheme. -/
theorem storeInvariant_selection_only (parse : String → Option URLRec)
    (evs : List CaptureEvent)
    (hall : ∀ ev ∈ evs, isSelectionEvent ev = true) :
    ∀ l ∈ getStoredLinks (runCaptures parse none evs),
      validUrl parse l.url :=
  runCaptures_selection_aux parse evs none hall (by simp [getStoredLinks])

/-- C1 witness: one SelectionClick capture of https://x.example/ yields a
store whose single entry passes protocol validation. -/
theorem storeInvariant_selection_only_witness :
    validUrl urlParseModel "https://x.example/" :=
  storeInvariant_selection_only urlParseModel
    [⟨some "https://page.example/", true, ⟨[], none, none⟩,
      some ⟨none, some "https://x.example/"⟩⟩]
    (by decide) ⟨"x.example", "https://x.example/"⟩ (by decide)
